import Mathlib

/-!
Verification of the panoptic-segmentation editor core.

This file gives a shallow embedding, in Lean 4, of the algorithmic core of
the repository: the boundary tracer and path simplifier of the segmentation
service (`mockSegmentationService.ts`), the connected-component scan with its
noise filter, and the session/history logic of `App.tsx` together with the
stroke-width computation and commit logic of `CanvasWorkspace.tsx`.

Conventions of the embedding:
* JavaScript numbers are modelled as `ℚ` (exact rationals) where the code
  computes with fractional values, and as `Int`/`Nat` where the code only
  ever holds integers (grid coordinates, indices, counters).
* `Math.sqrt(d) > tol` is embedded as `tol ^ 2 < d`, which is equivalent for
  the nonnegative tolerances the program uses (the only call site passes 2).
* Nondeterministic fragments of identifiers (`Date.now()`, `Math.random()`)
  are replaced by the deterministic counter that the code also embeds in the
  same identifier strings; no claim depends on identifier contents.
-/

/-- `ToolType` from `types.ts`. -/
inductive ToolType where
  | smart
  | add
  | subtract
  | pan
deriving DecidableEq, Repr

/-- `Point` from `types.ts`: image-space coordinates. -/
@[ext]
structure Point where
  x : ℚ
  y : ℚ
deriving DecidableEq, Repr

/-- `DrawingPath` from `types.ts`. -/
structure DrawingPath where
  points : List Point
  tool : ToolType
  brushSize : ℚ
  id : String
deriving DecidableEq, Repr

/-- `SmartSegment` from `types.ts`. -/
structure SmartSegment where
  id : String
  color : String
  path : DrawingPath
  selected : Bool
  label : String
deriving DecidableEq, Repr

/-- `EditorHistoryState` from `types.ts`: one undo/redo snapshot. -/
structure EditorHistoryState where
  smartSegments : List SmartSegment
  manualPaths : List DrawingPath
deriving DecidableEq, Repr

/-- `AppSettings` from `types.ts`. -/
structure AppSettings where
  penSize : ℚ
  invertMask : Bool
  borderSize : ℚ
  feather : ℚ
deriving DecidableEq, Repr

/-- `SMART_MASK_COLORS` from `constants.ts` (the eight-color palette paired
with the k-means segmentation service). -/
def SMART_MASK_COLORS : List String :=
  ["rgba(255, 99, 132, 0.6)",
   "rgba(54, 162, 235, 0.6)",
   "rgba(255, 206, 86, 0.6)",
   "rgba(75, 192, 192, 0.6)",
   "rgba(153, 102, 255, 0.6)",
   "rgba(255, 159, 64, 0.6)",
   "rgba(231, 76, 60, 0.6)",
   "rgba(46, 204, 113, 0.6)"]

/-- `DEFAULT_PEN_SIZE` from `constants.ts`. -/
def DEFAULT_PEN_SIZE : ℚ := 5

/-- A grid point of the downsampled label grid, as produced by
`traceBoundary` in `mockSegmentationService.ts`.  The tracer only ever holds
integer coordinates, so the embedding uses `Int` (the backtrack pointer can
be `-1`). -/
structure GPt where
  x : Int
  y : Int
deriving DecidableEq, Repr

/-- The eight Moore-neighbour direction vectors N, NE, E, SE, S, SW, W, NW,
exactly the `dirs` array of `traceBoundary`. -/
def dirs : List GPt :=
  [⟨0, -1⟩, ⟨1, -1⟩, ⟨1, 0⟩, ⟨1, 1⟩, ⟨0, 1⟩, ⟨-1, 1⟩, ⟨-1, 0⟩, ⟨-1, -1⟩]

/-- `dirs[i]` with the out-of-range default never used (indices are taken
mod 8 by the caller). -/
def dirAt (i : Nat) : GPt := dirs.getD i ⟨0, 0⟩

/-- The `dirIdx` search of `traceBoundary`: the first direction index `i < 8`
with `b + dirs[i] = c`, and the source's fallback value 6 (West) when the
search fails (`dirIdx === -1`). -/
def findBacktrackDir (b c : GPt) : Nat :=
  (((List.range 8).find? fun i =>
      (b.x + (dirAt i).x == c.x) && (b.y + (dirAt i).y == c.y))).getD 6

/-- The inside-the-component test of `traceBoundary`: the neighbour must lie
inside the `w × h` grid and carry the target label. -/
def isInsideLabel (labels : Nat → Int) (w h : Nat) (target : Int)
    (nx ny : Int) : Bool :=
  0 ≤ nx && nx < (w : Int) && 0 ≤ ny && ny < (h : Int) &&
    labels (ny * w + nx).toNat == target

/-- One clockwise Moore-neighbour scan of `traceBoundary`: starting from the
direction after the backtrack pointer `c`, find the first neighbour of `b`
inside the component; return the new boundary pixel `b'` together with the
new backtrack pointer `c'` (the neighbour scanned just before `b'`).
`none` models the `foundNext = false` break (isolated pixel). -/
def scanNext (labels : Nat → Int) (w h : Nat) (target : Int) (b c : GPt) :
    Option (GPt × GPt) :=
  let dirIdx := findBacktrackDir b c
  (((List.range 8).find? fun i =>
      let nd := (dirIdx + 1 + i) % 8
      isInsideLabel labels w h target (b.x + (dirAt nd).x)
        (b.y + (dirAt nd).y))).map fun i =>
    let nd := (dirIdx + 1 + i) % 8
    let pd := (nd + 7) % 8
    (⟨b.x + (dirAt nd).x, b.y + (dirAt nd).y⟩,
     ⟨b.x + (dirAt pd).x, b.y + (dirAt pd).y⟩)

/-- The do-while loop of `traceBoundary`.  Each level pushes the current
boundary pixel `b`; the loop continues while the next pixel differs from the
start pixel and the incremented step counter is still below `maxSteps`
(`steps < maxSteps` is checked after `steps++`, hence `steps + 1` here).
The `fuel` argument only makes the recursion structural; the caller passes
`maxSteps + 1`, which the invariant `fuel + steps = maxSteps + 1` shows is
never exhausted before the loop's own conditions stop it. -/
def traceAux (labels : Nat → Int) (w h : Nat) (target : Int)
    (startPixel : GPt) (maxSteps : Nat) :
    Nat → GPt → GPt → Nat → List GPt
  | 0, _, _, _ => []
  | fuel + 1, b, c, steps =>
    match scanNext labels w h target b c with
    | none => [b]
    | some (b', c') =>
      if b' ≠ startPixel ∧ steps + 1 < maxSteps then
        b :: traceAux labels w h target startPixel maxSteps fuel b' c'
          (steps + 1)
      else [b]

/-- `traceBoundary` from `mockSegmentationService.ts`: Moore-neighbour
contour following from the component's first-discovered pixel, with the
backtrack pointer initialised to the pixel's West neighbour and an iteration
budget of `w * h` steps. -/
def traceBoundary (labels : Nat → Int) (w h : Nat) (startIdx : Nat)
    (targetLabel : Int) : List GPt :=
  let startY : Int := (startIdx / w : Nat)
  let startX : Int := (startIdx % w : Nat)
  let b : GPt := ⟨startX, startY⟩
  let c : GPt := if startX = 0 then ⟨-1, startY⟩ else ⟨startX - 1, startY⟩
  let startPixel : GPt := ⟨startX, startY⟩
  let maxSteps := w * h
  traceAux labels w h targetLabel startPixel maxSteps (maxSteps + 1) b c 0

/-- The minimum-distance filter loop of `simplifyPoints`: a point is kept
only when its distance from the last kept point exceeds the tolerance.
`Math.sqrt(d) > tolerance` is embedded as `tolerance ^ 2 < d`, equivalent
for the nonnegative tolerance (2) the program passes. -/
def simplifyAux (tolerance : ℚ) : Point → List Point → List Point
  | _, [] => []
  | last, curr :: rest =>
    if tolerance ^ 2 < (curr.x - last.x) ^ 2 + (curr.y - last.y) ^ 2 then
      curr :: simplifyAux tolerance curr rest
    else
      simplifyAux tolerance last rest

/-- The "Close loop if needed" block of `simplifyPoints`: when the filtered
result has more than 2 points and its first point (`res[0]`) differs from
its last point in either coordinate, the first point is appended. -/
def simplifyClose (res : List Point) (p0 : Point) : List Point :=
  if 2 < res.length then
    if (res.headD p0).x ≠ (res.getLastD p0).x ∨
        (res.headD p0).y ≠ (res.getLastD p0).y then
      res ++ [res.headD p0]
    else res
  else res

/-- `simplifyPoints` from `mockSegmentationService.ts`: inputs of at most 2
points are returned unchanged; otherwise the distance filter runs (always
keeping the first point) and the loop is closed if needed. -/
def simplifyPoints (points : List Point) (tolerance : ℚ) : List Point :=
  if points.length ≤ 2 then points
  else
    match points with
    | [] => []
    | p0 :: rest => simplifyClose (p0 :: simplifyAux tolerance p0 rest) p0

/-- A concrete four-corner square whose consecutive points are farther apart
than the tolerance. -/
def egSquare : List Point := [⟨0, 0⟩, ⟨10, 0⟩, ⟨10, 10⟩, ⟨0, 10⟩]

/-- The four neighbour indices checked by the component BFS in
`mockPanopticSegmentation`: left, right, top, bottom of the flat index
`curr` (computed on the flat index, as in the source). -/
def neighborIndices (curr w : Nat) : List Int :=
  [(curr : Int) - 1, (curr : Int) + 1, (curr : Int) - (w : Int),
   (curr : Int) + (w : Int)]

/-- One neighbour check of the BFS inner loop: recompute `ny`/`nx` from the
flat index (`Math.floor(n / w)` is `Int.fdiv`; JS `%` truncates toward zero,
which is `Int.tmod`), test bounds, and enqueue the pixel when it is
unvisited and carries the component's cluster label.  The accumulator holds
the pixels enqueued so far at this step and the visited set. -/
def bfsStep (labels : Nat → Int) (w h : Nat) (clusterId : Int)
    (acc : List Nat × List Nat) (n : Int) : List Nat × List Nat :=
  let ny := Int.fdiv n (w : Int)
  let nx := Int.tmod n (w : Int)
  if 0 ≤ nx ∧ nx < (w : Int) ∧ 0 ≤ ny ∧ ny < (h : Int) then
    if n.toNat ∉ acc.2 ∧ labels n.toNat = clusterId then
      (acc.1 ++ [n.toNat], n.toNat :: acc.2)
    else acc
  else acc

/-- The BFS queue loop (`while (qIdx < queue.length)`): process the next
queued pixel, enqueue its admissible neighbours, and extend the component.
The fuel bounds the number of dequeues; every enqueued pixel is marked
visited at enqueue time and lies in the grid, so `w * h` dequeues suffice. -/
def bfsAux (labels : Nat → Int) (w h : Nat) (clusterId : Int) :
    Nat → List Nat → List Nat → List Nat → List Nat × List Nat
  | 0, _, comp, visited => (comp, visited)
  | _ + 1, [], comp, visited => (comp, visited)
  | fuel + 1, curr :: pending, comp, visited =>
    let found :=
      (neighborIndices curr w).foldl (bfsStep labels w h clusterId)
        ([], visited)
    bfsAux labels w h clusterId fuel (pending ++ found.1) (comp ++ found.1)
      found.2

/-- The BFS of the component-extraction loop: start from the scan pixel
`idx` (pushed to the queue, the component and the visited set), and return
the component's pixels in discovery order together with the updated visited
set. -/
def bfsComponent (labels : Nat → Int) (w h : Nat) (clusterId : Int)
    (idx : Nat) (visited : List Nat) : List Nat × List Nat :=
  bfsAux labels w h clusterId (w * h) [idx] [idx] (idx :: visited)

/-- The mutable state threaded through the component-extraction scan of
`mockPanopticSegmentation`: the visited set, the `segmentIdCounter`, and the
segments pushed so far. -/
structure SegScanState where
  visited : List Nat
  counter : Nat
  segments : List SmartSegment

/-- One iteration of the nested `for (y) for (x)` scan of
`mockPanopticSegmentation` at flat index `idx`: skip visited pixels, extract
the BFS component, discard it when its pixel count is below 0.5% of the
total downsampled pixel count (`pixelCount * 0.005`, embedded exactly as
`5 / 1000`), and otherwise trace, upscale (divide by `scale`), simplify and
push a Segment.  JS evaluates the segment's object fields in order, so the
post-incremented counter feeds the color index and label while the id keeps
the old counter value (the nondeterministic `Date.now()`/`Math.random()`
fragments of the id strings are dropped). -/
def segmentStep (labels : Nat → Int) (w h : Nat) (scale : ℚ)
    (st : SegScanState) (idx : Nat) : SegScanState :=
  if idx ∈ st.visited then st
  else
    let clusterId := labels idx
    let comp := bfsComponent labels w h clusterId idx st.visited
    if (comp.1.length : ℚ) < ((w * h : Nat) : ℚ) * (5 / 1000) then
      { st with visited := comp.2 }
    else
      let pathPoints := traceBoundary labels w h (comp.1.headD idx) clusterId
      let originalPoints := pathPoints.map fun p =>
        Point.mk ((p.x : ℚ) / scale) ((p.y : ℚ) / scale)
      let simplifiedPoints := simplifyPoints originalPoints 2
      { visited := comp.2
        counter := st.counter + 1
        segments := st.segments ++
          [{ id := "seg-" ++ toString st.counter
             color := SMART_MASK_COLORS.getD
               ((st.counter + 1) % SMART_MASK_COLORS.length) ""
             path := { points := simplifiedPoints, tool := ToolType.smart,
                       brushSize := 0, id := "path-" ++ toString st.counter }
             selected := false
             label := "Region " ++ toString (st.counter + 1) }] }

/-- Steps 3-8 of the Segmenter (`mockPanopticSegmentation` after k-means):
scan the downsampled `w × h` cluster-label grid in row-major order and
collect the emitted Segments.  The cluster labels (the random k-means
output) and the downsample `scale` are parameters. -/
def extractSegments (labels : Nat → Int) (w h : Nat) (scale : ℚ) :
    List SmartSegment :=
  ((List.range (w * h)).foldl (segmentStep labels w h scale)
    ⟨[], 0, []⟩).segments

/-- The single Segment produced by a 1×1 all-one-label grid (scale 1). -/
def egSeg : SmartSegment :=
  { id := "seg-0"
    color := "rgba(54, 162, 235, 0.6)"
    path := { points := [⟨0, 0⟩], tool := ToolType.smart, brushSize := 0,
              id := "path-0" }
    selected := false
    label := "Region 1" }

/-- `INITIAL_HISTORY` from `App.tsx`: the empty snapshot. -/
def INITIAL_HISTORY : EditorHistoryState :=
  { smartSegments := [], manualPaths := [] }

/-- `INITIAL_SETTINGS` from `App.tsx`. -/
def INITIAL_SETTINGS : AppSettings :=
  { penSize := DEFAULT_PEN_SIZE, invertMask := false, borderSize := 0,
    feather := 0 }

/-- `pushState` from `App.tsx`: truncate after the cursor
(`history.slice(0, historyIndex + 1)`), append the new snapshot, and set the
cursor to the new last index. -/
def pushState (history : List EditorHistoryState) (historyIndex : Nat)
    (newState : EditorHistoryState) : List EditorHistoryState × Nat :=
  let newHistory := history.take (historyIndex + 1) ++ [newState]
  (newHistory, newHistory.length - 1)

/-- `handleUndo` from `App.tsx`: decrement the cursor only when it is
positive. -/
def handleUndo (historyIndex : Nat) : Nat :=
  if 0 < historyIndex then historyIndex - 1 else historyIndex

/-- `handleRedo` from `App.tsx`: increment the cursor only when it is below
`history.length - 1`. -/
def handleRedo (historyLength historyIndex : Nat) : Nat :=
  if historyIndex < historyLength - 1 then historyIndex + 1 else historyIndex

/-- `handleReset` from `App.tsx` (its history effect): a single empty
snapshot with cursor 0. -/
def handleReset : List EditorHistoryState × Nat := ([INITIAL_HISTORY], 0)

/-- History states reachable from the initial state of `App.tsx` by the
four history operations (`pushState` with an arbitrary snapshot,
`handleUndo`, `handleRedo`, `handleReset`). -/
inductive HistReachable : List EditorHistoryState × Nat → Prop where
  | init : HistReachable ([INITIAL_HISTORY], 0)
  | push (h : List EditorHistoryState) (i : Nat) (s : EditorHistoryState) :
      HistReachable (h, i) → HistReachable (pushState h i s)
  | undo (h : List EditorHistoryState) (i : Nat) :
      HistReachable (h, i) → HistReachable (h, handleUndo i)
  | redo (h : List EditorHistoryState) (i : Nat) :
      HistReachable (h, i) → HistReachable (h, handleRedo h.length i)
  | reset (h : List EditorHistoryState) (i : Nat) :
      HistReachable (h, i) → HistReachable handleReset

/-- The effective stroke width computed by `renderMaskComposite` (and the
render loop) in `CanvasWorkspace.tsx`: the brush size is adjusted only when
`borderSize > 0`; a subtract path is narrowed to
`max(1, brushSize - borderSize * 2)` and any other path is widened to
`brushSize + borderSize * 2`. -/
def effectiveSize (tool : ToolType) (brushSize borderSize : ℚ) : ℚ :=
  if 0 < borderSize then
    if tool = ToolType.subtract then max 1 (brushSize - borderSize * 2)
    else brushSize + borderSize * 2
  else brushSize

/-- The session state of `App.tsx` relevant to settings and history: the
`settings`, `history` and `historyIndex` React states. -/
structure AppState where
  settings : AppSettings
  history : List EditorHistoryState
  historyIndex : Nat
deriving Repr

/-- A call to `updateSetting(key, value)` in `App.tsx`, one constructor per
settings key with the value type its UI control passes. -/
inductive SettingUpdate where
  | penSize (v : ℚ)
  | invertMask (v : Bool)
  | borderSize (v : ℚ)
  | feather (v : ℚ)

/-- The `setSettings(prev => ({...prev, [key]: value}))` update of
`updateSetting`: overwrite the one addressed field with the given value. -/
def applySettingUpdate (s : AppSettings) : SettingUpdate → AppSettings
  | .penSize v => { s with penSize := v }
  | .invertMask v => { s with invertMask := v }
  | .borderSize v => { s with borderSize := v }
  | .feather v => { s with feather := v }

/-- `updateSetting` from `App.tsx` lifted to the session state: it only
calls `setSettings`. -/
def updateSetting (st : AppState) (u : SettingUpdate) : AppState :=
  { st with settings := applySettingUpdate st.settings u }

/-- `handleUndo` lifted to the session state: it only calls
`setHistoryIndex`. -/
def appUndo (st : AppState) : AppState :=
  { st with historyIndex := handleUndo st.historyIndex }

/-- `handleRedo` lifted to the session state: it only calls
`setHistoryIndex`. -/
def appRedo (st : AppState) : AppState :=
  { st with historyIndex := handleRedo st.history.length st.historyIndex }

/-- `handleCommitManualPath` from `App.tsx` (the snapshot construction):
append the committed path to a copy of the current snapshot's
`manualPaths`. -/
def commitManualPath (cur : EditorHistoryState) (path : DrawingPath) :
    EditorHistoryState :=
  { cur with manualPaths := cur.manualPaths ++ [path] }

/-- `handleToggleSmartSegment` from `App.tsx` (the snapshot construction):
map over the segments, negating `selected` on the segment whose id matches
and copying every other segment unchanged. -/
def toggleSmartSegment (cur : EditorHistoryState) (segmentId : String) :
    EditorHistoryState :=
  { cur with smartSegments := cur.smartSegments.map fun seg =>
      if seg.id = segmentId then { seg with selected := !seg.selected }
      else seg }

/-- `handleMouseUp` from `CanvasWorkspace.tsx`, reduced to its commit
decision: fewer than 2 collected points are discarded without commit;
otherwise any non-smart tool commits a path with the collected points and
the current pen size (the id string `Date.now().toString()` is a
parameter). -/
def handleMouseUpCommit (tool : ToolType) (currentPoints : List Point)
    (penSize : ℚ) (pathId : String) : Option DrawingPath :=
  if currentPoints.length < 2 then none
  else if tool ≠ ToolType.smart then
    some { points := currentPoints, tool := tool, brushSize := penSize,
           id := pathId }
  else none

/-- `pushState` applied by `handleToggleSmartSegment`. -/
def handleToggleSmartSegment (h : List EditorHistoryState) (i : Nat)
    (sid : String) : List EditorHistoryState × Nat :=
  pushState h i (toggleSmartSegment (h.getD i INITIAL_HISTORY) sid)

/-- History states reachable by the session operations of `App.tsx`: the
initial state, replacing history with a fresh segmentation result, stroke
commits (only through `handleMouseUpCommit`), segment toggles, undo, redo
and reset. -/
inductive AppReachable : List EditorHistoryState × Nat → Prop where
  | init : AppReachable ([INITIAL_HISTORY], 0)
  | segmented (h : List EditorHistoryState) (i : Nat)
      (segs : List SmartSegment) : AppReachable (h, i) →
      AppReachable ([⟨segs, []⟩], 0)
  | commit (h : List EditorHistoryState) (i : Nat) (tool : ToolType)
      (pts : List Point) (pen : ℚ) (pathId : String) (p : DrawingPath) :
      AppReachable (h, i) →
      handleMouseUpCommit tool pts pen pathId = some p →
      AppReachable
        (pushState h i (commitManualPath (h.getD i INITIAL_HISTORY) p))
  | toggle (h : List EditorHistoryState) (i : Nat) (sid : String) :
      AppReachable (h, i) →
      AppReachable
        (pushState h i (toggleSmartSegment (h.getD i INITIAL_HISTORY) sid))
  | undo (h : List EditorHistoryState) (i : Nat) :
      AppReachable (h, i) → AppReachable (h, handleUndo i)
  | redo (h : List EditorHistoryState) (i : Nat) :
      AppReachable (h, i) → AppReachable (h, handleRedo h.length i)
  | reset (h : List EditorHistoryState) (i : Nat) :
      AppReachable (h, i) → AppReachable ([INITIAL_HISTORY], 0)

/-- A concrete two-point committed path. -/
def egPath : DrawingPath :=
  { points := [⟨0, 0⟩, ⟨3, 0⟩], tool := ToolType.add, brushSize := 5,
    id := "p1" }

/-- A concrete unselected segment with id "a". -/
def egSeg2 : SmartSegment :=
  { id := "a", color := "c",
    path := { points := [], tool := ToolType.smart, brushSize := 0,
              id := "pp" },
    selected := false, label := "L" }

/-- A snapshot holding just `egSeg2`. -/
def egSnap2 : EditorHistoryState :=
  { smartSegments := [egSeg2], manualPaths := [] }

theorem traceAux_length_le (labels : Nat → Int) (w h : Nat) (target : Int)
    (startPixel : GPt) (maxSteps : Nat) :
    ∀ fuel b c steps,
      (traceAux labels w h target startPixel maxSteps fuel b c steps).length ≤
        max 1 (maxSteps - steps) := by
  intro fuel
  induction fuel with
  | zero => intro b c steps; simp [traceAux]
  | succ n ih =>
    intro b c steps
    simp only [traceAux]
    cases hscan : scanNext labels w h target b c with
    | none => simp
    | some bc =>
      obtain ⟨b', c'⟩ := bc
      by_cases hcond : b' ≠ startPixel ∧ steps + 1 < maxSteps
      · simp only [if_pos hcond, List.length_cons]
        have := ih b' c' (steps + 1)
        omega
      · simp [if_neg hcond]

theorem traceAux_ne_nil (labels : Nat → Int) (w h : Nat) (target : Int)
    (startPixel : GPt) (maxSteps fuel : Nat) (b c : GPt) (steps : Nat) :
    1 ≤ (traceAux labels w h target startPixel maxSteps (fuel + 1) b c
          steps).length := by
  simp only [traceAux]
  cases hscan : scanNext labels w h target b c with
  | none => simp
  | some bc =>
    obtain ⟨b', c'⟩ := bc
    by_cases hcond : b' ≠ startPixel ∧ steps + 1 < maxSteps
    · simp [if_pos hcond]
    · simp [if_neg hcond]

theorem traceAux_avoids_start (labels : Nat → Int) (w h : Nat) (target : Int)
    (startPixel : GPt) (maxSteps : Nat) :
    ∀ fuel b c steps, b ≠ startPixel →
      ∀ p ∈ traceAux labels w h target startPixel maxSteps fuel b c steps,
        p ≠ startPixel := by
  intro fuel
  induction fuel with
  | zero => intro b c steps _ p hp; simp [traceAux] at hp
  | succ n ih =>
    intro b c steps hb p hp
    simp only [traceAux] at hp
    cases hscan : scanNext labels w h target b c with
    | none =>
      simp only [hscan] at hp; simp at hp; simpa [hp] using hb
    | some bc =>
      obtain ⟨b', c'⟩ := bc
      simp only [hscan] at hp
      by_cases hcond : b' ≠ startPixel ∧ steps + 1 < maxSteps
      · rw [if_pos hcond] at hp
        rcases List.mem_cons.mp hp with h1 | h2
        · simpa [h1] using hb
        · exact ih b' c' (steps + 1) hcond.1 p h2
      · rw [if_neg hcond] at hp
        simp at hp; simpa [hp] using hb

/-- Claim C1: for every label grid of width `w` and height `h`, every start
pixel and every target label, the boundary-tracing walk terminates (it is a
total function of its inputs) and collects at most `w * h` boundary points:
the walk stops when it returns to the start pixel (the start pixel is never
collected a second time — every point after the first differs from it), or
otherwise after the iteration budget of `w * h` steps, returning the partial
boundary collected so far; at least the start pixel is always collected. -/
theorem traceBoundary_terminates (labels : Nat → Int) (w h : Nat)
    (startIdx : Nat) (targetLabel : Int) :
    1 ≤ (traceBoundary labels w h startIdx targetLabel).length ∧
    (traceBoundary labels w h startIdx targetLabel).length ≤ max 1 (w * h) ∧
    ∀ p ∈ (traceBoundary labels w h startIdx targetLabel).tail,
      p ≠ (⟨(startIdx % w : Nat), (startIdx / w : Nat)⟩ : GPt) := by
  unfold traceBoundary
  refine ⟨?_, ?_, ?_⟩
  · exact traceAux_ne_nil _ _ _ _ _ _ _ _ _ _
  · have := traceAux_length_le labels w h targetLabel
      ⟨(startIdx % w : Nat), (startIdx / w : Nat)⟩ (w * h) (w * h + 1)
      ⟨(startIdx % w : Nat), (startIdx / w : Nat)⟩
      (if ((startIdx % w : Nat) : Int) = 0 then
        ⟨-1, (startIdx / w : Nat)⟩ else
        ⟨((startIdx % w : Nat) : Int) - 1, (startIdx / w : Nat)⟩) 0
    simpa using this
  · intro p hp
    simp only [traceAux] at hp
    cases hscan : scanNext labels w h targetLabel
        ⟨(startIdx % w : Nat), (startIdx / w : Nat)⟩
        (if ((startIdx % w : Nat) : Int) = 0 then
          ⟨-1, (startIdx / w : Nat)⟩ else
          ⟨((startIdx % w : Nat) : Int) - 1, (startIdx / w : Nat)⟩) with
    | none => simp only [hscan] at hp; simp at hp
    | some bc =>
      obtain ⟨b', c'⟩ := bc
      simp only [hscan] at hp
      by_cases hcond : b' ≠ (⟨(startIdx % w : Nat), (startIdx / w : Nat)⟩ : GPt)
          ∧ 0 + 1 < w * h
      · rw [if_pos hcond] at hp
        simp only [List.tail_cons] at hp
        exact traceAux_avoids_start labels w h targetLabel _ _ _ b' c' 1
          hcond.1 p hp
      · rw [if_neg hcond] at hp; simp at hp

theorem simplifyAux_sublist (tolerance : ℚ) :
    ∀ (l : List Point) (last : Point),
      (simplifyAux tolerance last l).Sublist l := by
  intro l
  induction l with
  | nil => intro last; simp [simplifyAux]
  | cons curr rest ih =>
    intro last
    simp only [simplifyAux]
    by_cases hc : tolerance ^ 2 <
        (curr.x - last.x) ^ 2 + (curr.y - last.y) ^ 2
    · rw [if_pos hc]; exact List.Sublist.cons₂ curr (ih curr)
    · rw [if_neg hc]; exact List.Sublist.cons curr (ih last)

/-- Claim C2: `simplifyPoints` with tolerance 2 is explicitly closed
whenever its result has more than 2 points (first point equals last point,
the first point having been appended if the filtered result was not already
closed); a result of 2 or fewer points is returned without a closing point
(it is a subsequence of the input, nothing appended). -/
theorem simplifyPoints_closes (points : List Point) :
    (2 < (simplifyPoints points 2).length →
      (simplifyPoints points 2).head? = (simplifyPoints points 2).getLast?) ∧
    ((simplifyPoints points 2).length ≤ 2 →
      (simplifyPoints points 2).Sublist points) := by
  by_cases hlen : points.length ≤ 2
  · rw [simplifyPoints.eq_def, if_pos hlen]
    exact ⟨fun hgt => absurd hgt (by omega),
           fun _ => List.Sublist.refl points⟩
  · cases points with
    | nil => simp at hlen
    | cons p0 rest =>
      have hunf : simplifyPoints (p0 :: rest) 2 =
          simplifyClose (p0 :: simplifyAux 2 p0 rest) p0 := by
        rw [simplifyPoints.eq_def, if_neg hlen]
      rw [hunf, simplifyClose]
      by_cases h2 : 2 < (p0 :: simplifyAux 2 p0 rest).length
      · rw [if_pos h2]
        simp only [List.headD_cons]
        by_cases hopen : p0.x ≠ ((p0 :: simplifyAux 2 p0 rest).getLastD p0).x
            ∨ p0.y ≠ ((p0 :: simplifyAux 2 p0 rest).getLastD p0).y
        · rw [if_pos hopen]
          constructor
          · intro _
            rw [List.getLast?_append_cons (p0 :: simplifyAux 2 p0 rest) p0 []]
            simp
          · intro hle
            rw [List.length_append] at hle
            omega
        · rw [if_neg hopen]
          constructor
          · intro _
            push_neg at hopen
            have hlast : (p0 :: simplifyAux 2 p0 rest).getLast? =
                some ((p0 :: simplifyAux 2 p0 rest).getLastD p0) := by
              rw [List.getLastD_eq_getLast?]
              cases hq : (p0 :: simplifyAux 2 p0 rest).getLast? with
              | none => simp [List.getLast?_eq_none_iff] at hq
              | some e => simp
            rw [List.head?_cons, hlast]
            congr 1
            exact Point.ext hopen.1 hopen.2
          · intro hle; omega
      · rw [if_neg h2]
        constructor
        · intro hgt; omega
        · intro _
          exact List.Sublist.cons₂ p0 (simplifyAux_sublist 2 rest p0)

theorem simplifyPoints_closes_witness :
    2 < (simplifyPoints egSquare 2).length ∧
    (simplifyPoints egSquare 2).head? = (simplifyPoints egSquare 2).getLast? :=
  ⟨by norm_num [simplifyPoints, simplifyAux, simplifyClose, egSquare],
   (simplifyPoints_closes egSquare).1
     (by norm_num [simplifyPoints, simplifyAux, simplifyClose, egSquare])⟩

theorem traceBoundary_terminates_witness :
    (⟨1, 0⟩ : GPt) ∈ (traceBoundary (fun _ => 0) 2 1 0 0).tail ∧
    (⟨1, 0⟩ : GPt) ≠ ⟨((0 % 2 : Nat) : Int), ((0 / 2 : Nat) : Int)⟩ :=
  ⟨by decide,
   (traceBoundary_terminates (fun _ => 0) 2 1 0 0).2.2 ⟨1, 0⟩ (by decide)⟩

theorem foldl_segments_sound (labels : Nat → Int) (w h : Nat) (scale : ℚ)
    (P : SmartSegment → Prop)
    (hstep : ∀ st idx, idx < w * h → (∀ s ∈ st.segments, P s) →
      ∀ s ∈ (segmentStep labels w h scale st idx).segments, P s) :
    ∀ (l : List Nat) (st : SegScanState), (∀ i ∈ l, i < w * h) →
      (∀ s ∈ st.segments, P s) →
      ∀ s ∈ (l.foldl (segmentStep labels w h scale) st).segments, P s := by
  intro l
  induction l with
  | nil => intro st _ hst; simpa using hst
  | cons a l ih =>
    intro st hl hst
    simp only [List.foldl_cons]
    exact ih _ (fun i hi => hl i (List.mem_cons_of_mem a hi))
      (hstep st a (hl a (List.mem_cons_self a l)) hst)

/-- Claim C3: every Segment emitted by a segmentation run comes from a
connected component (a BFS component of the cluster-label grid, extracted
with the then-current visited set) whose pixel count is at least 0.5% of the
total downsampled pixel count; components below the threshold are discarded
before any Segment is built from them. -/
theorem extractSegments_noise_filter (labels : Nat → Int) (w h : Nat)
    (scale : ℚ) (s : SmartSegment)
    (hs : s ∈ extractSegments labels w h scale) :
    ∃ idx visited, idx < w * h ∧
      ((w * h : Nat) : ℚ) * (5 / 1000) ≤
        ((bfsComponent labels w h (labels idx) idx visited).1.length : ℚ) ∧
      s.path.points = simplifyPoints
        ((traceBoundary labels w h
            ((bfsComponent labels w h (labels idx) idx visited).1.headD idx)
            (labels idx)).map fun p =>
          Point.mk ((p.x : ℚ) / scale) ((p.y : ℚ) / scale)) 2 := by
  refine foldl_segments_sound labels w h scale
    (fun t => ∃ idx visited, idx < w * h ∧
      ((w * h : Nat) : ℚ) * (5 / 1000) ≤
        ((bfsComponent labels w h (labels idx) idx visited).1.length : ℚ) ∧
      t.path.points = simplifyPoints
        ((traceBoundary labels w h
            ((bfsComponent labels w h (labels idx) idx visited).1.headD idx)
            (labels idx)).map fun p =>
          Point.mk ((p.x : ℚ) / scale) ((p.y : ℚ) / scale)) 2)
    ?_ (List.range (w * h)) ⟨[], 0, []⟩ (by simp) (by simp) s hs
  intro st idx hidx hst t ht
  simp only [segmentStep] at ht
  by_cases hv : idx ∈ st.visited
  · rw [if_pos hv] at ht
    exact hst t ht
  · rw [if_neg hv] at ht
    by_cases hsmall :
        ((bfsComponent labels w h (labels idx) idx st.visited).1.length : ℚ) <
          ((w * h : Nat) : ℚ) * (5 / 1000)
    · rw [if_pos hsmall] at ht
      exact hst t ht
    · rw [if_neg hsmall] at ht
      rcases List.mem_append.mp ht with h1 | h2
      · exact hst t h1
      · simp only [List.mem_singleton] at h2
        subst h2
        exact ⟨idx, st.visited, hidx, le_of_not_lt hsmall, rfl⟩

theorem extractSegments_noise_filter_witness :
    ∃ idx visited, idx < 1 * 1 ∧
      ((1 * 1 : Nat) : ℚ) * (5 / 1000) ≤
        ((bfsComponent (fun _ => 0) 1 1 0 idx visited).1.length : ℚ) ∧
      egSeg.path.points = simplifyPoints
        ((traceBoundary (fun _ => 0) 1 1
            ((bfsComponent (fun _ => 0) 1 1 0 idx visited).1.headD idx)
            0).map fun p =>
          Point.mk ((p.x : ℚ) / 1) ((p.y : ℚ) / 1)) 2 :=
  extractSegments_noise_filter (fun _ => 0) 1 1 1 egSeg (by
    have hbfs : bfsComponent (fun _ => (0 : Int)) 1 1 0 0 [] = ([0], [0]) := by
      decide
    have htrace : traceBoundary (fun _ => (0 : Int)) 1 1 0 0 = [⟨0, 0⟩] := by
      decide
    norm_num [extractSegments, segmentStep, hbfs, htrace, simplifyPoints,
      SMART_MASK_COLORS, egSeg, show List.range 1 = [0] by decide,
      List.foldl_cons, List.foldl_nil]
    exact ⟨by decide, by decide, by decide⟩)

/-- Claim C4: pushing a snapshot truncates all snapshots after the cursor,
appends the new snapshot, and sets the cursor to the new last index; in
particular from stack `[s0, s1, s2]` with cursor 2, undo followed by
`push s3` yields stack `[s0, s1, s3]` with cursor 2, discarding `s2`. -/
theorem pushState_truncates (h : List EditorHistoryState) (i : Nat)
    (s s0 s1 s2 s3 : EditorHistoryState) :
    (pushState h i s).1 = h.take (i + 1) ++ [s] ∧
    (pushState h i s).2 = (h.take (i + 1) ++ [s]).length - 1 ∧
    (pushState [s0, s1, s2] (handleUndo 2) s3).1 = [s0, s1, s3] ∧
    (pushState [s0, s1, s2] (handleUndo 2) s3).2 = 2 := by
  refine ⟨rfl, rfl, ?_, ?_⟩ <;> simp [pushState, handleUndo]

theorem histReachable_index_lt (st : List EditorHistoryState × Nat)
    (hr : HistReachable st) : st.2 < st.1.length := by
  induction hr with
  | init => simp
  | push h i s _ _ =>
    simp only [pushState, List.length_append, List.length_cons,
      List.length_nil]
    omega
  | undo h i _ ih =>
    dsimp only at ih ⊢
    simp only [handleUndo]
    split <;> omega
  | redo h i _ ih =>
    dsimp only at ih ⊢
    simp only [handleRedo]
    split <;> omega
  | reset h i _ _ => simp [handleReset]

/-- Claim C5: undo decrements the cursor only when it is positive and is a
no-op at 0; redo increments the cursor only below `length - 1` and is a
no-op at the last index; and in every state reachable by push, undo, redo
and reset the cursor is a valid index into the stack and the stack is
nonempty. -/
theorem undo_redo_bounds :
    (∀ i, 0 < i → handleUndo i = i - 1) ∧
    handleUndo 0 = 0 ∧
    (∀ len i, i < len - 1 → handleRedo len i = i + 1) ∧
    (∀ len, handleRedo len (len - 1) = len - 1) ∧
    (∀ st, HistReachable st → st.2 < st.1.length ∧ st.1 ≠ []) := by
  refine ⟨?_, rfl, ?_, ?_, ?_⟩
  · intro i hi; rw [handleUndo, if_pos hi]
  · intro len i hi; rw [handleRedo, if_pos hi]
  · intro len; rw [handleRedo, if_neg (by omega)]
  · intro st hr
    have hlt := histReachable_index_lt st hr
    refine ⟨hlt, fun hnil => ?_⟩
    rw [hnil] at hlt
    simp at hlt

theorem undo_redo_bounds_witness :
    handleUndo 2 = 2 - 1 ∧ handleRedo 3 1 = 1 + 1 ∧
    (([INITIAL_HISTORY], 0) : List EditorHistoryState × Nat).2 <
      (([INITIAL_HISTORY], 0) : List EditorHistoryState × Nat).1.length :=
  ⟨undo_redo_bounds.1 2 (by decide),
   undo_redo_bounds.2.2.1 3 1 (by decide),
   (undo_redo_bounds.2.2.2.2 ([INITIAL_HISTORY], 0) HistReachable.init).1⟩

/-- Claim C6 fails as stated: at `borderSize = 0` the code uses the raw
brush size, so a subtract path with `brushSize = 1/2` gets width `1/2`,
not the claimed `max(1, brushSize - 2 * borderSize) = 1`. -/
theorem effectiveSize_claim_counterexample :
    effectiveSize ToolType.subtract (1 / 2) 0 ≠
      max 1 ((1 / 2 : ℚ) - 2 * 0) := by
  rw [effectiveSize]
  norm_num [max_def]

/-- Claim C6 (amended): for every manual path with `brushSize ≥ 1` and
every settings value with `borderSize ≥ 0` (both guaranteed by the
documented slider ranges penSize 1-100 and borderSize 0-20), the effective
stroke width is `brushSize + 2 * borderSize` for an add path and
`max 1 (brushSize - 2 * borderSize)` for a subtract path. -/
theorem effectiveSize_formula (brushSize borderSize : ℚ)
    (hb : 1 ≤ brushSize) (h0 : 0 ≤ borderSize) :
    effectiveSize ToolType.add brushSize borderSize =
      brushSize + 2 * borderSize ∧
    effectiveSize ToolType.subtract brushSize borderSize =
      max 1 (brushSize - 2 * borderSize) := by
  constructor
  · rw [effectiveSize]
    by_cases hpos : (0 : ℚ) < borderSize
    · rw [if_pos hpos, if_neg (by decide)]
      ring
    · rw [if_neg hpos]
      rw [le_antisymm (not_lt.mp hpos) h0]
      ring
  · rw [effectiveSize]
    by_cases hpos : (0 : ℚ) < borderSize
    · rw [if_pos hpos, if_pos rfl, mul_comm borderSize 2]
    · rw [if_neg hpos]
      rw [le_antisymm (not_lt.mp hpos) h0, mul_zero, sub_zero,
        max_eq_right hb]

theorem effectiveSize_formula_witness :
    effectiveSize ToolType.add 5 2 = 5 + 2 * 2 ∧
    effectiveSize ToolType.subtract 5 2 = max 1 (5 - 2 * 2) :=
  effectiveSize_formula 5 2 (by norm_num) (by norm_num)

/-- Claim C7: changing any mask-adjustment setting leaves the history stack
and the cursor unchanged (no undo step is created), and undo and redo leave
the settings unchanged. -/
theorem settings_history_independent (st : AppState) (u : SettingUpdate) :
    (updateSetting st u).history = st.history ∧
    (updateSetting st u).historyIndex = st.historyIndex ∧
    (appUndo st).settings = st.settings ∧
    (appRedo st).settings = st.settings :=
  ⟨rfl, rfl, rfl, rfl⟩

/-- Claim C8 fails as stated: `updateSetting` stores the provided value
without clamping, so mutating `penSize` to 200 stores 200, outside the
documented 1-100 range. -/
theorem updateSetting_no_clamp_counterexample :
    (applySettingUpdate INITIAL_SETTINGS
      (SettingUpdate.penSize 200)).penSize = 200 ∧
    ¬((applySettingUpdate INITIAL_SETTINGS
        (SettingUpdate.penSize 200)).penSize ≤ 100) :=
  ⟨rfl, by norm_num [applySettingUpdate, INITIAL_SETTINGS]⟩

/-- Claim C8 (amended): a slider mutation stores exactly the provided value
— no clamping happens at the point of mutation, and the out-of-range value
is silently stored rather than propagated as an error. -/
theorem updateSetting_stores_raw (st : AppState) (v : ℚ) (b : Bool) :
    (updateSetting st (SettingUpdate.penSize v)).settings.penSize = v ∧
    (updateSetting st (SettingUpdate.borderSize v)).settings.borderSize = v ∧
    (updateSetting st (SettingUpdate.feather v)).settings.feather = v ∧
    (updateSetting st (SettingUpdate.invertMask b)).settings.invertMask = b :=
  ⟨rfl, rfl, rfl, rfl⟩

theorem handleMouseUpCommit_points (tool : ToolType) (pts : List Point)
    (pen : ℚ) (pathId : String) (p : DrawingPath)
    (hp : handleMouseUpCommit tool pts pen pathId = some p) :
    2 ≤ p.points.length := by
  rw [handleMouseUpCommit] at hp
  by_cases hlen : pts.length < 2
  · rw [if_pos hlen] at hp
    exact absurd hp (by simp)
  · rw [if_neg hlen] at hp
    by_cases htool : tool ≠ ToolType.smart
    · rw [if_pos htool] at hp
      obtain rfl := Option.some.inj hp
      exact not_lt.mp hlen
    · rw [if_neg htool] at hp
      exact absurd hp (by simp)

theorem getD_mem_of_lt {α : Type} (l : List α) (i : Nat) (d : α)
    (hi : i < l.length) : l.getD i d ∈ l := by
  rw [List.getD_eq_getElem l d hi]
  exact List.getElem_mem hi

theorem mem_pushState (h : List EditorHistoryState) (i : Nat)
    (s snap : EditorHistoryState) (hmem : snap ∈ (pushState h i s).1) :
    snap ∈ h ∨ snap = s := by
  simp only [pushState] at hmem
  rcases List.mem_append.mp hmem with h1 | h2
  · exact Or.inl (List.take_subset (i + 1) h h1)
  · simp only [List.mem_singleton] at h2
    exact Or.inr h2

/-- Claim C9: a drag that collected fewer than 2 points is discarded
without invoking the commit callback; every committed path has at least 2
points; consequently every `ManualPath` stored in any snapshot of any
reachable history has 2 or more points. -/
theorem manualPaths_two_points :
    (∀ tool (pts : List Point) pen pathId, pts.length < 2 →
      handleMouseUpCommit tool pts pen pathId = none) ∧
    (∀ tool pts pen pathId p,
      handleMouseUpCommit tool pts pen pathId = some p →
      2 ≤ p.points.length) ∧
    (∀ st, AppReachable st → ∀ snap ∈ st.1, ∀ p ∈ snap.manualPaths,
      2 ≤ p.points.length) := by
  refine ⟨?_, ?_, ?_⟩
  · intro tool pts pen pathId hlen
    rw [handleMouseUpCommit, if_pos hlen]
  · exact handleMouseUpCommit_points
  · intro st hr
    induction hr with
    | init =>
      intro snap hsnap p hp
      simp only [List.mem_singleton] at hsnap
      subst hsnap
      simp [INITIAL_HISTORY] at hp
    | segmented h i segs _ _ =>
      intro snap hsnap p hp
      simp only [List.mem_singleton] at hsnap
      subst hsnap
      simp at hp
    | commit h i tool pts pen pathId q _ hq ih =>
      intro snap hsnap p hp
      rcases mem_pushState _ _ _ _ hsnap with hold | hnew
      · exact ih snap hold p hp
      · subst hnew
        simp only [commitManualPath] at hp
        rcases List.mem_append.mp hp with h1 | h2
        · by_cases hi : i < h.length
          · exact ih (h.getD i INITIAL_HISTORY)
              (getD_mem_of_lt h i INITIAL_HISTORY hi) p h1
          · rw [List.getD_eq_default h INITIAL_HISTORY (not_lt.mp hi)] at h1
            simp [INITIAL_HISTORY] at h1
        · simp only [List.mem_singleton] at h2
          subst h2
          exact handleMouseUpCommit_points tool pts pen pathId p hq
    | toggle h i sid _ ih =>
      intro snap hsnap p hp
      rcases mem_pushState _ _ _ _ hsnap with hold | hnew
      · exact ih snap hold p hp
      · subst hnew
        simp only [toggleSmartSegment] at hp
        by_cases hi : i < h.length
        · exact ih (h.getD i INITIAL_HISTORY)
            (getD_mem_of_lt h i INITIAL_HISTORY hi) p hp
        · rw [List.getD_eq_default h INITIAL_HISTORY (not_lt.mp hi)] at hp
          simp [INITIAL_HISTORY] at hp
    | undo h i _ ih =>
      intro snap hsnap p hp
      exact ih snap hsnap p hp
    | redo h i _ ih =>
      intro snap hsnap p hp
      exact ih snap hsnap p hp
    | reset h i _ _ =>
      intro snap hsnap p hp
      simp only [List.mem_singleton] at hsnap
      subst hsnap
      simp [INITIAL_HISTORY] at hp

theorem manualPaths_two_points_witness :
    handleMouseUpCommit ToolType.add [⟨0, 0⟩] 5 "p0" = none ∧
    2 ≤ egPath.points.length :=
  ⟨manualPaths_two_points.1 ToolType.add [⟨0, 0⟩] 5 "p0" (by simp),
   manualPaths_two_points.2.2
     (pushState [INITIAL_HISTORY] 0
       (commitManualPath
         (([INITIAL_HISTORY] : List EditorHistoryState).getD 0
           INITIAL_HISTORY) egPath))
     (AppReachable.commit [INITIAL_HISTORY] 0 ToolType.add
       [⟨0, 0⟩, ⟨3, 0⟩] 5 "p1" egPath AppReachable.init rfl)
     (commitManualPath INITIAL_HISTORY egPath) (by simp [pushState])
     egPath (by simp [commitManualPath, INITIAL_HISTORY])⟩

/-- Claim C10: toggling a smart segment by id pushes a snapshot in which
exactly the matching segment has `selected` negated: the manualPaths are
unchanged, the segment list keeps its length, each position keeps its id,
color, path and label with `selected` negated exactly on an id match, an id
matching no segment leaves the segment list equal, the pushed history is the
truncated old history plus the new snapshot, and the snapshots up to the
cursor (the current snapshot included) are left in place unmodified. -/
theorem toggleSmartSegment_frame (h : List EditorHistoryState) (i : Nat)
    (sid : String) :
    (toggleSmartSegment (h.getD i INITIAL_HISTORY) sid).manualPaths =
      (h.getD i INITIAL_HISTORY).manualPaths ∧
    (toggleSmartSegment (h.getD i INITIAL_HISTORY) sid).smartSegments.length
      = (h.getD i INITIAL_HISTORY).smartSegments.length ∧
    (∀ (k : Nat) (s : SmartSegment),
      (h.getD i INITIAL_HISTORY).smartSegments[k]? = some s →
      ∃ s', (toggleSmartSegment (h.getD i INITIAL_HISTORY)
          sid).smartSegments[k]? = some s' ∧
        s'.id = s.id ∧ s'.color = s.color ∧ s'.path = s.path ∧
        s'.label = s.label ∧
        s'.selected = (if s.id = sid then !s.selected else s.selected)) ∧
    ((∀ s ∈ (h.getD i INITIAL_HISTORY).smartSegments, s.id ≠ sid) →
      (toggleSmartSegment (h.getD i INITIAL_HISTORY) sid).smartSegments =
        (h.getD i INITIAL_HISTORY).smartSegments) ∧
    (handleToggleSmartSegment h i sid).1 =
      h.take (i + 1) ++ [toggleSmartSegment (h.getD i INITIAL_HISTORY) sid] ∧
    (∀ j, j ≤ i → j < h.length →
      (handleToggleSmartSegment h i sid).1[j]? = h[j]?) := by
  refine ⟨rfl, by simp [toggleSmartSegment], ?_, ?_, rfl, ?_⟩
  · intro k s hk
    refine ⟨if s.id = sid then { s with selected := !s.selected } else s,
      ?_, ?_⟩
    · simp only [toggleSmartSegment]
      rw [List.getElem?_map, hk]
      rfl
    · by_cases hid : s.id = sid
      · simp [hid]
      · simp [hid]
  · intro hall
    simp only [toggleSmartSegment]
    rw [List.map_congr_left fun s hs => if_neg (hall s hs), List.map_id']
  · intro j hj hjh
    show (h.take (i + 1) ++
      [toggleSmartSegment (h.getD i INITIAL_HISTORY) sid])[j]? = h[j]?
    rw [List.getElem?_append_left (by rw [List.length_take]; omega),
      List.getElem?_take, if_pos (by omega)]

theorem toggleSmartSegment_frame_witness :
    (∃ s', (toggleSmartSegment
        (([egSnap2] : List EditorHistoryState).getD 0 INITIAL_HISTORY)
        "a").smartSegments[0]? = some s' ∧
      s'.id = egSeg2.id ∧ s'.color = egSeg2.color ∧ s'.path = egSeg2.path ∧
      s'.label = egSeg2.label ∧
      s'.selected =
        (if egSeg2.id = "a" then !egSeg2.selected else egSeg2.selected)) ∧
    (handleToggleSmartSegment [egSnap2] 0 "a").1[0]? =
      ([egSnap2] : List EditorHistoryState)[0]? :=
  ⟨(toggleSmartSegment_frame [egSnap2] 0 "a").2.2.1 0 egSeg2
     (by simp [egSnap2]),
   (toggleSmartSegment_frame [egSnap2] 0 "a").2.2.2.2.2 0 (Nat.le_refl 0)
     (by simp)⟩
